import Mathlib

/-!
Verification of the measurement-and-analysis pipeline of the VIXcelerate
benchmarking harness (scripts/bench.py, scripts/postprocess.py,
scripts/plot_heatmap.py), as a shallow embedding in Lean.

Python floats are modelled as `Option ℚ`: the scripts use the IEEE NaN value
as their missing-value marker, which we model as `none`; every finite float
is modelled as an exact rational.  The scripts never produce infinities on
the paths covered here; places where real execution would produce a
non-finite value or raise are noted at the corresponding definition.
-/

/-- A Python float as used by the benchmark scripts: `none` models NaN
(the missing-value marker of the scripts), `some q` a finite value. -/
abbrev PyF := Option ℚ

/-- Python comparison `x < y` on floats: every comparison against NaN is
false. -/
def pyLt : PyF → PyF → Bool
  | some a, some b => decide (a < b)
  | _, _ => false

/-- Python comparison `x > 0` on a float: false when x is NaN. -/
def pyGtZero : PyF → Bool
  | some a => decide (0 < a)
  | none => false

/-- Python float addition: NaN propagates. -/
def pyAdd : PyF → PyF → PyF
  | some a, some b => some (a + b)
  | _, _ => none

/-- Python float halving, used by the even branch of statistics.median:
NaN propagates. -/
def pyHalf : PyF → PyF
  | some a => some (a / 2)
  | none => none

/-- Python float division.  NaN in either operand propagates.  A zero
divisor raises ZeroDivisionError in Python; every use below is guarded so
that the `none` returned here for a zero divisor is unreachable. -/
def pyDiv : PyF → PyF → PyF
  | some a, some b => if b = 0 then none else some (a / b)
  | _, _ => none

/-- One insertion step of the stable sort performed by CPython `sorted`
on floats, using the `<` comparison under which NaN is incomparable. -/
def pyInsert (x : PyF) : List PyF → List PyF
  | [] => [x]
  | y :: ys => if pyLt x y then x :: y :: ys else y :: pyInsert x ys

/-- CPython `sorted` on a list of floats: stable, driven by `<`
comparisons, so NaN entries simply stay where the insertion order puts
them (checked against CPython on the concrete lists used below). -/
def pySort (l : List PyF) : List PyF := l.foldl (fun acc x => pyInsert x acc) []

/-- statistics.median as executed on a float list: sort, then take the
middle element, or the mean of the two middle elements for an even
length.  No NaN filtering happens: NaN entries take part in the sort and
can end up as (or next to) the selected middle element. -/
def pyMedian (l : List PyF) : PyF :=
  let d := pySort l
  let n := d.length
  if n % 2 = 1 then d.getD (n / 2) none
  else pyHalf (pyAdd (d.getD (n / 2 - 1) none) (d.getD (n / 2) none))

/-- `med` from scripts/bench.py line 78:
`def med(vals): return stats.median(vals) if vals else float("nan")`. -/
def med (vals : List PyF) : PyF := if vals = [] then none else pyMedian vals

/-- The aggregation bench.py line 105 applies to the peak-memory field
only: NaN entries are filtered out before `med` is applied
(`med([r["maxrss_kb"] for r in runs if not np.isnan(r["maxrss_kb"])])`).
The other fields (lines 94–97 and 103–107) go through `med` unfiltered. -/
def medFiltered (vals : List PyF) : PyF := med (vals.filter (fun x => x.isSome))

/-- Insertion step of a standard sort on rationals. -/
def insertQ (x : ℚ) : List ℚ → List ℚ
  | [] => [x]
  | y :: ys => if x < y then x :: y :: ys else y :: insertQ x ys

/-- Standard stable sort on rationals. -/
def sortQ (l : List ℚ) : List ℚ := l.foldl (fun acc x => insertQ x acc) []

/-- Modelled from the spec: the standard median of a list of (defined)
values — middle value of the sorted list, or the average of the two
middle values for an even count; undefined on an empty list. -/
def medianQ (l : List ℚ) : PyF :=
  if l = [] then none
  else
    let d := sortQ l
    let n := d.length
    if n % 2 = 1 then some (d.getD (n / 2) 0)
    else some ((d.getD (n / 2 - 1) 0 + d.getD (n / 2) 0) / 2)

/-- Modelled from the spec: the aggregate of a field is the standard
median of its non-missing values, and missing when every value is
missing. -/
def specAggregate (vals : List PyF) : PyF := medianQ (vals.filterMap id)

/-! ### Lemmas relating the executed aggregation to the spec median -/

theorem filterMap_id_map_some (l : List ℚ) : List.filterMap id (l.map some) = l := by
  induction l with
  | nil => rfl
  | cons x xs ih =>
    simp only [List.map_cons, List.filterMap_cons, id]
    rw [ih]

theorem filter_isSome_eq (l : List PyF) :
    l.filter (fun x => x.isSome) = (l.filterMap id).map some := by
  induction l with
  | nil => rfl
  | cons x xs ih =>
    cases x with
    | none => simpa using ih
    | some a => simpa using ih

theorem pyInsert_map_some (a : ℚ) (l : List ℚ) :
    pyInsert (some a) (l.map some) = (insertQ a l).map some := by
  induction l with
  | nil => rfl
  | cons y ys ih =>
    by_cases h : a < y
    · simp [pyInsert, insertQ, pyLt, h]
    · simp [pyInsert, insertQ, pyLt, h, ih]

theorem pyFoldl_map_some (l : List ℚ) :
    ∀ acc : List ℚ,
      List.foldl (fun acc x => pyInsert x acc) (acc.map some) (l.map some) =
        (List.foldl (fun acc x => insertQ x acc) acc l).map some := by
  induction l with
  | nil => intro acc; rfl
  | cons x xs ih =>
    intro acc
    simp only [List.map_cons, List.foldl_cons]
    rw [pyInsert_map_some x acc]
    exact ih (insertQ x acc)

theorem pySort_map_some (l : List ℚ) : pySort (l.map some) = (sortQ l).map some := by
  have h := pyFoldl_map_some l []
  simpa [pySort, sortQ] using h

theorem insertQ_length (x : ℚ) (l : List ℚ) : (insertQ x l).length = l.length + 1 := by
  induction l with
  | nil => rfl
  | cons y ys ih =>
    by_cases h : x < y
    · simp [insertQ, h]
    · simp [insertQ, h, ih]

theorem sortQ_foldl_length (l : List ℚ) :
    ∀ acc : List ℚ,
      (List.foldl (fun acc x => insertQ x acc) acc l).length = acc.length + l.length := by
  induction l with
  | nil => intro acc; simp
  | cons x xs ih =>
    intro acc
    simp only [List.foldl_cons]
    rw [ih (insertQ x acc), insertQ_length]
    simp only [List.length_cons]
    omega

theorem sortQ_length (l : List ℚ) : (sortQ l).length = l.length := by
  simpa [sortQ] using sortQ_foldl_length l []

theorem getD_map_some (l : List ℚ) :
    ∀ i : ℕ, i < l.length → (l.map some).getD i none = some (l.getD i 0) := by
  induction l with
  | nil => intro i h; simp at h
  | cons x xs ih =>
    intro i h
    cases i with
    | zero => rfl
    | succ j =>
      simp only [List.map_cons, List.getD_cons_succ]
      exact ih j (by simpa using h)

theorem med_map_some (l : List ℚ) : med (l.map some) = medianQ l := by
  by_cases hl : l = []
  · subst hl; rfl
  · have hmap : l.map some ≠ [] := by simpa using hl
    have hsort := pySort_map_some l
    have hlen : (pySort (l.map some)).length = (sortQ l).length := by
      rw [hsort]; simp
    have hlenq : (sortQ l).length = l.length := sortQ_length l
    have hpos : 0 < l.length := List.length_pos.mpr hl
    unfold med medianQ pyMedian
    simp only [hmap, if_neg, hl, ite_false]
    rw [hsort]
    by_cases hodd : (((sortQ l).map some).length) % 2 = 1
    · have hodd2 : (sortQ l).length % 2 = 1 := by simpa using hodd
      simp only [hodd, if_pos, hodd2]
      have hidx : (sortQ l).length / 2 < (sortQ l).length := by omega
      rw [List.length_map, getD_map_some _ _ (by simpa using hidx)]
    · have hodd2 : ¬((sortQ l).length % 2 = 1) := by simpa using hodd
      simp only [hodd, if_neg, hodd2, ite_false]
      have hlen2 : 2 ≤ (sortQ l).length := by
        rcases Nat.lt_or_ge (sortQ l).length 2 with h2 | h2
        · interval_cases h : (sortQ l).length <;> omega
        · exact h2
      have hi1 : (sortQ l).length / 2 - 1 < (sortQ l).length := by omega
      have hi2 : (sortQ l).length / 2 < (sortQ l).length := by omega
      rw [List.length_map, getD_map_some _ _ (by simpa using hi1),
        getD_map_some _ _ (by simpa using hi2)]
      rfl

theorem pyInsert_none_all_none (l : List PyF) (h : ∀ x ∈ l, x = none) :
    pyInsert none l = l ++ [none] := by
  induction l with
  | nil => rfl
  | cons y ys ih =>
    have hy : y = none := h y (by simp)
    subst hy
    simp only [pyInsert, pyLt, Bool.false_eq_true, if_false, List.cons_append]
    rw [ih (fun x hx => h x (by simp [hx]))]

theorem med_all_none (vals : List PyF) (h : ∀ x ∈ vals, x = none) : med vals = none := by
  have hsort : ∀ x ∈ pySort vals, x = none := by
    unfold pySort
    have : ∀ (l acc : List PyF), (∀ x ∈ l, x = none) → (∀ x ∈ acc, x = none) →
        ∀ x ∈ List.foldl (fun acc x => pyInsert x acc) acc l, x = none := by
      intro l
      induction l with
      | nil => intro acc _ hacc; simpa using hacc
      | cons z zs ih =>
        intro acc hl hacc
        simp only [List.foldl_cons]
        have hz : z = none := hl z (by simp)
        subst hz
        refine ih (pyInsert none acc) (fun x hx => hl x (by simp [hx])) ?_
        rw [pyInsert_none_all_none acc hacc]
        intro x hx
        rcases List.mem_append.mp hx with hx | hx
        · exact hacc x hx
        · simpa using hx
    exact this vals [] h (by simp)
  unfold med pyMedian
  by_cases hv : vals = []
  · simp [hv]
  · simp only [hv, ite_false]
    by_cases hodd : (pySort vals).length % 2 = 1
    · simp only [hodd, if_pos]
      rcases hgd : (pySort vals).getD ((pySort vals).length / 2) none with _ | q
      · rfl
      · exfalso
        have hmem : some q ∈ pySort vals := by
          have hlt : (pySort vals).length / 2 < (pySort vals).length := by
            have : pySort vals ≠ [] := by
              intro hnil
              rw [hnil] at hodd
              simp at hodd
            have := List.length_pos.mpr this
            omega
          have := List.getD_eq_getElem (pySort vals) none hlt
          rw [this] at hgd
          rw [← hgd]
          exact List.getElem_mem hlt
        have := hsort _ hmem
        simp at this
    · simp only [hodd, ite_false]
      rcases hgd : (pySort vals).getD ((pySort vals).length / 2 - 1) none with _ | q
      · simp [pyAdd, pyHalf]
      · exfalso
        have hne : pySort vals ≠ [] := by
          intro hnil
          rw [hnil] at hgd
          simp [List.getD] at hgd
        have hlt : (pySort vals).length / 2 - 1 < (pySort vals).length := by
          have := List.length_pos.mpr hne
          omega
        have hmem : some q ∈ pySort vals := by
          have := List.getD_eq_getElem (pySort vals) none hlt
          rw [this] at hgd
          rw [← hgd]
          exact List.getElem_mem hlt
        have := hsort _ hmem
        simp at this

/-- C1: the claim fails on the code.  A repeat set whose internal-duration
(or correctness-scalar) values are NaN, 1.0, 3.0 — the field is missing in
the first repeat only — is aggregated by `med` without NaN filtering
(bench.py lines 95–97, 104, 106–107): statistics.median sorts the list to
[nan, 1.0, 3.0] and returns 1.0, whereas the standard median of the
non-missing values {1.0, 3.0} is 2.0. -/
theorem c1_counterexample :
    med [none, some 1, some 3] = some 1 ∧
    specAggregate [none, some 1, some 3] = some 2 ∧
    med [none, some 1, some 3] ≠ specAggregate [none, some 1, some 3] := by
  refine ⟨by rfl, ?_, ?_⟩
  · norm_num [specAggregate, medianQ, sortQ, insertQ, List.foldl_cons, List.foldl_nil,
      List.filterMap_cons, List.filterMap_nil, List.getD, List.cons_ne_nil]
  · rw [(by rfl : med [none, some 1, some 3] = some 1)]
    norm_num [specAggregate, medianQ, sortQ, insertQ, List.foldl_cons, List.foldl_nil,
      List.filterMap_cons, List.filterMap_nil, List.getD, List.cons_ne_nil]

/-- C1 (amended): only the peak-memory field is aggregated as the standard
median of its non-missing values (the code filters NaN for that field
alone); for the other fields the aggregate equals the standard median of
the non-missing values only when no repeat is missing the field, and an
all-missing field (in particular the empty repeat set) aggregates to NaN,
i.e. missing. -/
theorem c1_amended :
    (∀ vals : List PyF, medFiltered vals = specAggregate vals) ∧
    (∀ l : List ℚ, med (l.map some) = specAggregate (l.map some)) ∧
    (∀ vals : List PyF, (∀ x ∈ vals, x = none) → med vals = none) := by
  refine ⟨?_, ?_, med_all_none⟩
  · intro vals
    unfold medFiltered specAggregate
    rw [filter_isSome_eq, med_map_some]
  · intro l
    unfold specAggregate
    rw [med_map_some]
    rw [filterMap_id_map_some]

/-- Witness for C1 (amended): the all-missing branch at the concrete
repeat set [NaN, NaN]. -/
theorem c1_amended_witness : med [(none : PyF), none] = none :=
  c1_amended.2.2 [none, none] (by decide)

/-! ### Metric extraction (bench.py run_one, lines 55–60) -/

/-- Python regex whitespace class, the characters matched by a backslash-s
escape. -/
def isPySpace (c : Char) : Bool :=
  c = ' ' || c = '\t' || c = '\n' || c = '\r' || c = '\x0b' || c = '\x0c'

/-- The character class of the capture group in HC_RE and HP_RE
(bench.py lines 17–18): digits and the dot. -/
def isNumTok (c : Char) : Bool := c.isDigit || c = '.'

/-- Bool prefix test on character lists. -/
def listStartsWith : List Char → List Char → Bool
  | [], _ => true
  | _ :: _, [] => false
  | k :: ks, c :: cs => k = c && listStartsWith ks cs

/-- Match the regex pattern of HC_RE and HP_RE at the start of `s`: the
literal key, then any run of whitespace, then a nonempty greedy run of
digits and dots, which is the capture.  The two character classes are
disjoint, so greedy matching needs no backtracking. -/
def matchKeyAt (key : List Char) (s : List Char) : Option (List Char) :=
  if listStartsWith key s then
    let tok := ((s.drop key.length).dropWhile isPySpace).takeWhile isNumTok
    if tok = [] then none else some tok
  else none

/-- re.search: scan positions left to right and return the capture of the
first position where the whole pattern matches. -/
def searchKey (key : List Char) : List Char → Option (List Char)
  | [] => matchKeyAt key []
  | c :: rest =>
    match matchKeyAt key (c :: rest) with
    | some tok => some tok
    | none => searchKey key rest

/-- The literal part of HC_RE, bench.py line 17. -/
def hcKey : List Char := ['h', 'c', ':']

/-- The literal part of HP_RE, bench.py line 18. -/
def hpKey : List Char := ['h', 'p', ':']

/-- bench.py line 59: the hc correctness scalar is extracted by searching
the captured stdout only; the stderr capture is not consulted, and an
absent marker leaves the field missing (NaN).  We keep the captured token;
run_one then applies Python float() to it. -/
def hcField (out _err : List Char) : Option (List Char) := searchKey hcKey out

/-- bench.py line 60: the hp correctness scalar, extracted the same way —
stdout only. -/
def hpField (out _err : List Char) : Option (List Char) := searchKey hpKey out

theorem searchKey_isSome_iff (key : List Char) (s : List Char) :
    (searchKey key s).isSome ↔ ∃ i : ℕ, (matchKeyAt key (s.drop i)).isSome := by
  induction s with
  | nil =>
    constructor
    · intro h
      exact ⟨0, h⟩
    · rintro ⟨i, hi⟩
      simpa [searchKey] using (by simpa using hi)
  | cons c rest ih =>
    constructor
    · intro h
      unfold searchKey at h
      rcases hm : matchKeyAt key (c :: rest) with _ | tok
      · rw [hm] at h
        simp only at h
        rcases ih.mp h with ⟨i, hi⟩
        exact ⟨i + 1, by simpa using hi⟩
      · exact ⟨0, by simp [hm]⟩
    · rintro ⟨i, hi⟩
      unfold searchKey
      rcases hm : matchKeyAt key (c :: rest) with _ | tok
      · simp only
        cases i with
        | zero =>
          rw [List.drop_zero] at hi
          rw [hm] at hi
          simp at hi
        | succ j =>
          exact ih.mpr ⟨j, by simpa using hi⟩
      · simp

/-- C2: the claim fails on the code.  run_one (bench.py lines 59–60)
searches only the captured stdout for the hc and hp markers; a process
whose stdout is empty and whose stderr carries the marker line
`hc: 1.5` yields a missing hc field even though the marker is present
and well formed on stderr. -/
theorem c2_counterexample :
    hcField [] ['h', 'c', ':', ' ', '1', '.', '5'] = none ∧
    searchKey hcKey ['h', 'c', ':', ' ', '1', '.', '5'] = some ['1', '.', '5'] := by
  exact ⟨by decide, by decide⟩

/-- C2 (amended): the extractor finds the hc and hp markers on stdout
only — the extracted field is a function of stdout alone, it is present
exactly when some position of stdout matches the marker pattern, and a
marker appearing only on stderr (like any absent marker) yields a missing
field rather than an error; either, both, or neither marker may be
present, independently. -/
theorem c2_amended :
    (∀ out err1 err2 : List Char,
      hcField out err1 = hcField out err2 ∧ hpField out err1 = hpField out err2) ∧
    (∀ out err : List Char,
      ((hcField out err).isSome ↔ ∃ i : ℕ, (matchKeyAt hcKey (out.drop i)).isSome) ∧
      ((hpField out err).isSome ↔ ∃ i : ℕ, (matchKeyAt hpKey (out.drop i)).isSome)) := by
  refine ⟨fun out err1 err2 => ⟨rfl, rfl⟩, fun out err => ⟨?_, ?_⟩⟩
  · exact searchKey_isSome_iff hcKey out
  · exact searchKey_isSome_iff hpKey out

/-- Witness for C2 (amended): on stdout `xhc:2` the hc marker matches at
position 1, and the extractor indeed reports a present field. -/
theorem c2_amended_witness :
    (hcField ['x', 'h', 'c', ':', '2'] []).isSome = true := by
  have h := ((c2_amended.2 ['x', 'h', 'c', ':', '2'] []).1).mpr ⟨1, by decide⟩
  simpa using h

/-! ### Amdahl serial-fraction fit (bench.py lines 80–87, postprocess.py
lines 32–38, and the callers wrapping it in try/except) -/

/-- Sum of squared residuals of the model `y ≈ b0 + b1 / p` over the
paired data, the objective that ordinary least squares minimises for the
design-matrix columns [1, 1/p]. -/
def sse (ps ys : List ℚ) (b0 b1 : ℚ) : ℚ :=
  ((ps.zip ys).map (fun q => (b0 + b1 / q.1 - q.2) ^ 2)).sum

/-- The solution numpy.linalg.lstsq computes (in exact arithmetic) for the
design matrix with columns [1, 1/p]: for a full-column-rank system the
unique ordinary-least-squares solution obtained from the normal equations;
for a rank-deficient system — the Cauchy–Schwarz case where every 1/p is
the same value c, including a single row — lstsq does not raise but
returns the minimum-norm minimiser, which lies on the line
b0 + c·b1 = mean(y) and is its multiple of (1, c). -/
def lstsqAmdahl (ps ys : List ℚ) : ℚ × ℚ :=
  let n : ℚ := ps.length
  let s12 := (ps.map (fun p => 1 / p)).sum
  let s22 := (ps.map (fun p => 1 / (p * p))).sum
  let b1 := ys.sum
  let b2 := ((ps.zip ys).map (fun q => q.2 / q.1)).sum
  let det := n * s22 - s12 * s12
  if det = 0 then
    match ps with
    | [] => (0, 0)
    | p :: _ =>
      let c := 1 / p
      let t := b1 / n
      (t / (1 + c * c), t * c / (1 + c * c))
  else
    ((s22 * b1 - s12 * b2) / det, (n * b2 - s12 * b1) / det)

/-- amdahl_serial_fraction together with the try/except wrapped around its
call sites (bench.py lines 180–186, postprocess.py lines 121–126), as it
behaves at runtime: a NaN baseline, a zero baseline (whose division makes
y non-finite), any NaN parallel duration, or a zero thread count (whose
reciprocal makes the design matrix non-finite) makes numpy.linalg.lstsq
raise LinAlgError, the caller catches it and produces no estimate —
modelled as `none`.  Otherwise the first fitted coefficient is returned;
note that a rank-deficient but finite system does NOT raise. -/
def amdahlEstimate (ps : List ℤ) (tps : List PyF) (T1 : PyF) : Option ℚ :=
  match T1 with
  | none => none
  | some t1 =>
    if t1 = 0 then none
    else if tps.any (fun x => x.isNone) then none
    else if ps.any (fun p => p = 0) then none
    else some (lstsqAmdahl (ps.map (fun p => (p : ℚ)))
      ((tps.filterMap id).map (fun tp => tp / t1))).1

theorem sse_nonneg (ps ys : List ℚ) (b0 b1 : ℚ) : 0 ≤ sse ps ys b0 b1 := by
  apply List.sum_nonneg
  intro x hx
  rcases List.mem_map.mp hx with ⟨q, _, rfl⟩
  positivity

/-- C3: over thread counts [1, 2, 4, 8] and data generated exactly as
Tp = T1 · (s + (1 − s)/p), the fitted first coefficient recovers s exactly
(hence within any tolerance, in particular 1e−6); moreover the parameter
pair (s, 1 − s) attains zero sum of squared residuals, which is the
minimum of the least-squares objective over all coefficient pairs, so the
returned value is indeed the first coefficient of the ordinary
least-squares fit over all configurations simultaneously. -/
theorem c3_amdahl_ols_recovery (t1 s : ℚ) (h : 0 < t1) :
    amdahlEstimate [1, 2, 4, 8]
        (([1, 2, 4, 8] : List ℤ).map (fun p => some (t1 * (s + (1 - s) / (p : ℚ)))))
        (some t1) = some s ∧
    sse [1, 2, 4, 8] (([1, 2, 4, 8] : List ℚ).map (fun p => s + (1 - s) / p)) s (1 - s) = 0 ∧
    (∀ b0 b1 : ℚ,
      sse [1, 2, 4, 8] (([1, 2, 4, 8] : List ℚ).map (fun p => s + (1 - s) / p)) s (1 - s) ≤
        sse [1, 2, 4, 8] (([1, 2, 4, 8] : List ℚ).map (fun p => s + (1 - s) / p)) b0 b1) ∧
    (∀ shat : ℚ,
      amdahlEstimate [1, 2, 4, 8]
          (([1, 2, 4, 8] : List ℤ).map (fun p => some (t1 * (s + (1 - s) / (p : ℚ)))))
          (some t1) = some shat → |shat - s| ≤ 1 / 1000000) := by
  have ht1 : t1 ≠ 0 := ne_of_gt h
  have hfm : ∀ a b c d : ℚ, List.filterMap id [some a, some b, some c, some d] = [a, b, c, d] :=
    fun a b c d => rfl
  have hmain : amdahlEstimate [1, 2, 4, 8]
      (([1, 2, 4, 8] : List ℤ).map (fun p => some (t1 * (s + (1 - s) / (p : ℚ)))))
      (some t1) = some s := by
    simp only [amdahlEstimate, List.map_cons, List.map_nil, ht1, if_false,
      List.any_cons, List.any_nil, Option.isNone_some, Bool.or_false, Bool.false_eq_true,
      ite_false, Int.cast_one, Int.cast_ofNat]
    norm_num [hfm]
    simp only [lstsqAmdahl, List.map_cons, List.map_nil, List.zip, List.zipWith_cons_cons,
      List.zipWith_nil_right, List.sum_cons, List.sum_nil, List.length_cons, List.length_nil]
    norm_num
    field_simp
    ring
  have hsse : sse [1, 2, 4, 8] (([1, 2, 4, 8] : List ℚ).map (fun p => s + (1 - s) / p))
      s (1 - s) = 0 := by
    simp only [sse, List.map_cons, List.map_nil, List.zip, List.zipWith_cons_cons,
      List.zipWith_nil_right, List.sum_cons, List.sum_nil]
    norm_num
  refine ⟨hmain, hsse, ?_, ?_⟩
  · intro b0 b1
    rw [hsse]
    exact sse_nonneg _ _ b0 b1
  · intro shat hs
    rw [hmain] at hs
    have heq : s = shat := Option.some.inj hs
    rw [← heq]
    simp

/-- Witness for C3: the spec instance t1 = 10, true serial fraction
s = 1/10; the fit returns exactly 1/10. -/
theorem c3_witness :
    (0 : ℚ) < 10 ∧
    amdahlEstimate [1, 2, 4, 8]
        (([1, 2, 4, 8] : List ℤ).map (fun p => some ((10 : ℚ) * (1/10 + (1 - 1/10) / (p : ℚ)))))
        (some 10) = some (1/10) :=
  ⟨by norm_num, (c3_amdahl_ols_recovery 10 (1/10) (by norm_num)).1⟩

/-! ### Report artifacts (postprocess.py main, lines 103–133; bench.py
main, lines 123–190) -/

/-- The artifacts the two drivers can write. -/
inductive Artifact
  | csvTable
  | timePlot
  | speedupPlot
  | efficiencyPlot
  | memoryPlot
  | amdahlTxt
  | speedupSerial
  | speedupParallel
  | correctnessTable
  | summaryTxt
  | throughputPng
  deriving DecidableEq

/-- The data returned by load (postprocess.py lines 6–30): shared serial
fields from the first row and the per-row parallel columns in file
order. -/
structure LoadedData where
  ngrid : ℤ
  t1Wall : PyF
  t1App : PyF
  hc1 : PyF
  hp1 : PyF
  P : List ℤ
  Tp : List PyF
  Sp : List PyF
  Ep : List PyF
  Hc : List PyF
  Hp : List PyF
  Rss : List PyF

/-- The artifact sequence written by main of postprocess.py (lines
110–130), for executions in which the unconditional steps succeed: the
serial-baseline speedup plot; the parallel-baseline speedup plot only when
thread count 1 occurs among the loaded rows (save_speedup_parallel, lines
50–63, returns early otherwise); the correctness table; the summary; the
amdahl text only when the try/except-wrapped fit succeeds (lines
121–126); the throughput plot only when both optional workload parameters
were supplied (lines 128–130). -/
def postprocessArtifacts (d : LoadedData) (mrange nstrike : Option ℤ) : List Artifact :=
  [Artifact.speedupSerial]
    ++ (if 1 ∈ d.P then [Artifact.speedupParallel] else [])
    ++ [Artifact.correctnessTable, Artifact.summaryTxt]
    ++ (match amdahlEstimate d.P d.Tp d.t1Wall with
        | some _ => [Artifact.amdahlTxt]
        | none => [])
    ++ (if mrange.isSome && nstrike.isSome then [Artifact.throughputPng] else [])

theorem amdahl_none_of_any_none (ps : List ℤ) (tps : List PyF) (T1 : PyF)
    (h : tps.any (fun x => x.isNone) = true) : amdahlEstimate ps tps T1 = none := by
  unfold amdahlEstimate
  cases T1 with
  | none => rfl
  | some t1 =>
    by_cases ht : t1 = 0
    · simp [ht]
    · simp [ht, h]

theorem artifacts_of_amdahl_none (d : LoadedData) (mr ns : Option ℤ)
    (h : amdahlEstimate d.P d.Tp d.t1Wall = none) :
    Artifact.amdahlTxt ∉ postprocessArtifacts d mr ns ∧
    Artifact.summaryTxt ∈ postprocessArtifacts d mr ns ∧
    Artifact.speedupSerial ∈ postprocessArtifacts d mr ns ∧
    Artifact.correctnessTable ∈ postprocessArtifacts d mr ns ∧
    (Artifact.throughputPng ∈ postprocessArtifacts d mr ns ↔ (mr.isSome ∧ ns.isSome)) := by
  unfold postprocessArtifacts
  rw [h]
  refine ⟨?_, ?_, ?_, ?_, ?_⟩ <;>
    by_cases h1 : (1 : ℤ) ∈ d.P <;>
    by_cases h2 : mr.isSome <;>
    by_cases h3 : ns.isSome <;>
    simp [h1, h2, h3]

/-- A loaded dataset with a single distinct thread count (2, listed
twice), well-defined durations, and baseline 1. -/
def degenerateData : LoadedData :=
  { ngrid := 48, t1Wall := some 1, t1App := none, hc1 := none, hp1 := none,
    P := [2, 2], Tp := [some 1, some 1], Sp := [some 1, some 1], Ep := [none, none],
    Hc := [none, none], Hp := [none, none], Rss := [none, none] }

/-- C4: the claim fails on the code.  With only one distinct thread count
(configurations [2, 2], both with Tp = 1, baseline T1 = 1) the design
matrix is rank-deficient, but numpy.linalg.lstsq does not raise on a
rank-deficient finite system — it returns the minimum-norm solution, here
first coefficient 4/5 — so the try/except is not triggered and amdahl.txt
IS written, contradicting the claimed "no estimate is produced". -/
theorem c4_counterexample :
    degenerateData.P.dedup.length = 1 ∧
    amdahlEstimate degenerateData.P degenerateData.Tp degenerateData.t1Wall = some (4/5) ∧
    Artifact.amdahlTxt ∈ postprocessArtifacts degenerateData none none := by
  have h1 : List.filterMap id [some (1:ℚ), some 1] = [1, 1] := rfl
  have hest : amdahlEstimate degenerateData.P degenerateData.Tp degenerateData.t1Wall
      = some (4/5) := by
    norm_num [degenerateData, amdahlEstimate, lstsqAmdahl, List.zip]
    rw [h1]
    norm_num
  refine ⟨by decide, hest, ?_⟩
  unfold postprocessArtifacts
  rw [hest]
  simp

/-- C4 (amended): when the least-squares input is non-finite — the
baseline is missing, or any parallel median duration is missing (NaN
reaches the solver and LinAlgError is raised) — the exception is caught,
no amdahl.txt artifact is written, and the rest of report generation is
unaffected (the other artifacts are still produced, with the throughput
artifact still governed only by its own option gate).  Fewer than 2
distinct thread counts alone does not suppress the estimate, since the
rank-deficient fit succeeds with the minimum-norm solution. -/
theorem c4_amended :
    (∀ (d : LoadedData) (mr ns : Option ℤ),
      d.Tp.any (fun x => x.isNone) = true →
        amdahlEstimate d.P d.Tp d.t1Wall = none ∧
        Artifact.amdahlTxt ∉ postprocessArtifacts d mr ns ∧
        Artifact.summaryTxt ∈ postprocessArtifacts d mr ns ∧
        Artifact.speedupSerial ∈ postprocessArtifacts d mr ns ∧
        Artifact.correctnessTable ∈ postprocessArtifacts d mr ns ∧
        (Artifact.throughputPng ∈ postprocessArtifacts d mr ns ↔ (mr.isSome ∧ ns.isSome))) ∧
    (∀ (d : LoadedData) (mr ns : Option ℤ),
      d.t1Wall = none →
        amdahlEstimate d.P d.Tp d.t1Wall = none ∧
        Artifact.amdahlTxt ∉ postprocessArtifacts d mr ns ∧
        Artifact.summaryTxt ∈ postprocessArtifacts d mr ns) := by
  constructor
  · intro d mr ns h
    have hnone := amdahl_none_of_any_none d.P d.Tp d.t1Wall h
    have hm := artifacts_of_amdahl_none d mr ns hnone
    exact ⟨hnone, hm.1, hm.2.1, hm.2.2.1, hm.2.2.2.1, hm.2.2.2.2⟩
  · intro d mr ns h
    have hnone : amdahlEstimate d.P d.Tp d.t1Wall = none := by
      unfold amdahlEstimate
      rw [h]
    have hm := artifacts_of_amdahl_none d mr ns hnone
    exact ⟨hnone, hm.1, hm.2.1⟩

/-- A loaded dataset whose second parallel duration is missing. -/
def nanTpData : LoadedData :=
  { ngrid := 48, t1Wall := some 1, t1App := none, hc1 := none, hp1 := none,
    P := [1, 2], Tp := [some 1, none], Sp := [some 1, none], Ep := [none, none],
    Hc := [none, none], Hp := [none, none], Rss := [none, none] }

/-- Witness for C4 (amended): a dataset with a missing Tp yields no
amdahl estimate while the summary artifact is still produced. -/
theorem c4_amended_witness :
    amdahlEstimate nanTpData.P nanTpData.Tp nanTpData.t1Wall = none ∧
    Artifact.amdahlTxt ∉ postprocessArtifacts nanTpData none none ∧
    Artifact.summaryTxt ∈ postprocessArtifacts nanTpData none none := by
  have h := c4_amended.1 nanTpData none none (by decide)
  exact ⟨h.1, h.2.1, h.2.2.1⟩

/-! ### Speedup and efficiency (bench.py lines 109–110) -/

/-- bench.py line 109: `Sp = T1_wall / Tp_wall if Tp_wall > 0 else
float("nan")`.  The NaN comparison `nan > 0` is false, so a missing Tp
falls into the NaN branch; a missing T1 propagates through the
division. -/
def speedupOf (T1wall TpWall : PyF) : PyF :=
  if pyGtZero TpWall then pyDiv T1wall TpWall else none

/-- bench.py line 110: `Ep = Sp / pthr if pthr > 0 else float("nan")`. -/
def efficiencyOf (Sp : PyF) (pthr : ℤ) : PyF :=
  if 0 < pthr then pyDiv Sp (some (pthr : ℚ)) else none

/-- Modelled from the spec: Speedup(p) = T1 / Tp, undefined if Tp is
missing or ≤ 0. -/
def specSpeedup (T1 Tp : PyF) : PyF :=
  match Tp with
  | none => none
  | some q => if q ≤ 0 then none else pyDiv T1 (some q)

/-- Modelled from the spec: Efficiency(p) = Speedup(p) / p, undefined
whenever the speedup is undefined and whenever p ≤ 0. -/
def specEfficiency (T1 Tp : PyF) (p : ℤ) : PyF :=
  if p ≤ 0 then none
  else
    match specSpeedup T1 Tp with
    | none => none
    | some s => some (s / (p : ℚ))

/-- C5: the computed speedup and efficiency agree with the specified
ones — undefined exactly when Tp is missing or ≤ 0 (respectively also
when p ≤ 0) — and on the spec instance T1 = 10, Tp = [10, 5, 2.5] at
thread counts [1, 2, 4] the speedups are [1, 2, 4] and the efficiencies
all 1. -/
theorem c5_speedup_efficiency :
    (∀ T1 Tp : PyF, speedupOf T1 Tp = specSpeedup T1 Tp) ∧
    (∀ (T1 Tp : PyF) (p : ℤ),
      efficiencyOf (speedupOf T1 Tp) p = specEfficiency T1 Tp p) ∧
    ([some 10, some 5, some (5/2)].map (speedupOf (some 10)) = [some 1, some 2, some 4]) ∧
    (([(1 : ℤ), 2, 4].zip [some (10:ℚ), some 5, some (5/2)]).map
        (fun c => efficiencyOf (speedupOf (some 10) c.2) c.1) = [some 1, some 1, some 1]) := by
  have hsp : ∀ T1 Tp : PyF, speedupOf T1 Tp = specSpeedup T1 Tp := by
    intro T1 Tp
    cases Tp with
    | none => rfl
    | some q =>
      by_cases hq : 0 < q
      · simp [speedupOf, specSpeedup, pyGtZero, hq, not_le.mpr hq]
      · simp [speedupOf, specSpeedup, pyGtZero, hq, not_lt.mp hq]
  refine ⟨hsp, ?_, ?_, ?_⟩
  · intro T1 Tp p
    rw [hsp]
    by_cases hp : 0 < p
    · cases Tp with
      | none =>
        simp [efficiencyOf, specSpeedup, specEfficiency, hp, not_le.mpr hp, pyDiv]
      | some q =>
        by_cases hq : q ≤ 0
        · simp [efficiencyOf, specSpeedup, specEfficiency, hp, not_le.mpr hp, hq, pyDiv]
        · cases T1 with
          | none => simp [efficiencyOf, specSpeedup, specEfficiency, hp, not_le.mpr hp, hq, pyDiv]
          | some t =>
            have hq0 : q ≠ 0 := fun h => hq (le_of_eq h)
            have hp0 : (p : ℚ) ≠ 0 := by
              exact_mod_cast fun h => (not_le.mpr hp) (le_of_eq (by exact_mod_cast h))
            simp [efficiencyOf, specSpeedup, specEfficiency, hp, not_le.mpr hp, hq, pyDiv,
              hq0, hp0]
    · simp [efficiencyOf, specEfficiency, hp, not_lt.mp hp]
  · norm_num [speedupOf, pyGtZero, pyDiv]
  · norm_num [efficiencyOf, speedupOf, pyGtZero, pyDiv, List.zip]

/-! ### Persisted table round trip (bench.py lines 123–131 write the CSV;
postprocess.py lines 6–30 reload it).

Cells are modelled as the exact values the strings encode rather than as
character strings: Python guarantees float(str(x)) == x for every finite
float and for NaN (which prints as `nan` and reparses as NaN), and
int(str(n)) == n, so the string layer is a bijection on the values that
occur and is abstracted into the `Cell` constructors. -/

/-- One CSV cell, by the exact value its text encodes. -/
inductive Cell
  | empty
  | nanCell
  | intCell (n : ℤ)
  | ratCell (q : ℚ)
  deriving DecidableEq

/-- Writing a float field with csv.DictWriter: a NaN prints as `nan`, a
finite value as its repr. -/
def writeF : PyF → Cell
  | none => Cell.nanCell
  | some q => Cell.ratCell q

/-- Python float() applied unconditionally to a cell, as load does for
T1_wall_s, T1_app_s and Tp_wall_s: an empty cell raises ValueError
(modelled as `none` at the Option layer), `nan` parses to NaN, numeric
text to its value. -/
def parseFloat : Cell → Option PyF
  | Cell.empty => none
  | Cell.nanCell => some none
  | Cell.intCell n => some (some (n : ℚ))
  | Cell.ratCell q => some (some q)

/-- The guarded pattern `float(row[k]) if row[k] else float("nan")` load
uses for hc1, hp1, speedup, efficiency, hc_med, hp_med, maxrss_kb: an
empty cell becomes NaN instead of raising. -/
def parseFloatOpt : Cell → Option PyF
  | Cell.empty => some none
  | c => parseFloat c

/-- Python int() applied to a cell, as load does for NGRID and threads:
only integer text parses, everything else raises. -/
def parseInt : Cell → Option ℤ
  | Cell.intCell n => some n
  | _ => none

/-- One parallel row as load collects it (postprocess.py lines 22–29). -/
structure ParRow where
  p : ℤ
  tp : PyF
  sp : PyF
  ep : PyF
  hc : PyF
  hp : PyF
  rss : PyF
  deriving DecidableEq

/-- The per-configuration aggregate row bench.py accumulates
(lines 112–121). -/
structure BenchRow where
  threads : ℤ
  TpWall : PyF
  TpApp : PyF
  speedup : PyF
  efficiency : PyF
  maxrss : PyF
  hcMed : PyF
  hpMed : PyF
  deriving DecidableEq

/-- The whole-run data bench.py writes to the CSV (lines 123–131). -/
structure BenchTableData where
  ngrid : ℤ
  T1wall : PyF
  T1app : PyF
  hc1 : PyF
  hp1 : PyF
  rows : List BenchRow

/-- One CSV row in the fieldnames order of bench.py line 126: NGRID,
T1_wall_s, T1_app_s, hc1, hp1, threads, Tp_wall_s, Tp_app_s, speedup,
efficiency, maxrss_kb, hc_med, hp_med; the serial fields repeat on every
row. -/
def writeRow (t : BenchTableData) (r : BenchRow) : List Cell :=
  [Cell.intCell t.ngrid, writeF t.T1wall, writeF t.T1app, writeF t.hc1, writeF t.hp1,
   Cell.intCell r.threads, writeF r.TpWall, writeF r.TpApp, writeF r.speedup,
   writeF r.efficiency, writeF r.maxrss, writeF r.hcMed, writeF r.hpMed]

/-- The persisted table: one row per configuration, in order. -/
def writeTable (t : BenchTableData) : List (List Cell) := t.rows.map (writeRow t)

/-- load parsing of one row into the parallel arrays
(postprocess.py lines 22–29): threads with int(), Tp_wall_s with an
unguarded float(), the rest guarded against empty cells. -/
def parseRowPar (row : List Cell) : Option ParRow :=
  (parseInt (row.getD 5 Cell.empty)).bind fun p =>
  (parseFloat (row.getD 6 Cell.empty)).bind fun tp =>
  (parseFloatOpt (row.getD 8 Cell.empty)).bind fun sp =>
  (parseFloatOpt (row.getD 9 Cell.empty)).bind fun ep =>
  (parseFloatOpt (row.getD 11 Cell.empty)).bind fun hc =>
  (parseFloatOpt (row.getD 12 Cell.empty)).bind fun hp =>
  (parseFloatOpt (row.getD 10 Cell.empty)).bind fun rss =>
  some ⟨p, tp, sp, ep, hc, hp, rss⟩

/-- load (postprocess.py lines 6–30): an empty table exits fatally
(`none` here); otherwise the serial fields come from the first row
(NGRID and the two baselines unguarded, hc1/hp1 guarded) and every row
contributes to the parallel arrays in file order. -/
def loadTable (tbl : List (List Cell)) : Option LoadedData :=
  match tbl with
  | [] => none
  | r0 :: _ =>
    (parseInt (r0.getD 0 Cell.empty)).bind fun ngrid =>
    (parseFloat (r0.getD 1 Cell.empty)).bind fun t1w =>
    (parseFloat (r0.getD 2 Cell.empty)).bind fun t1a =>
    (parseFloatOpt (r0.getD 3 Cell.empty)).bind fun hc1 =>
    (parseFloatOpt (r0.getD 4 Cell.empty)).bind fun hp1 =>
    (tbl.mapM parseRowPar).bind fun prs =>
    some { ngrid := ngrid, t1Wall := t1w, t1App := t1a, hc1 := hc1, hp1 := hp1,
           P := prs.map ParRow.p, Tp := prs.map ParRow.tp, Sp := prs.map ParRow.sp,
           Ep := prs.map ParRow.ep, Hc := prs.map ParRow.hc, Hp := prs.map ParRow.hp,
           Rss := prs.map ParRow.rss }

theorem parseFloat_writeF (x : PyF) : parseFloat (writeF x) = some x := by
  cases x <;> rfl

theorem parseFloatOpt_writeF (x : PyF) : parseFloatOpt (writeF x) = some x := by
  cases x <;> rfl

/-- The ParRow that a written row reloads to. -/
def toParRow (r : BenchRow) : ParRow :=
  ⟨r.threads, r.TpWall, r.speedup, r.efficiency, r.hcMed, r.hpMed, r.maxrss⟩

theorem parseRowPar_writeRow (t : BenchTableData) (r : BenchRow) :
    parseRowPar (writeRow t r) = some (toParRow r) := by
  simp [parseRowPar, writeRow, toParRow, parseFloat_writeF, parseFloatOpt_writeF,
    parseInt, List.getD]

theorem mapM_parse_write (t : BenchTableData) (rows : List BenchRow) :
    (rows.map (writeRow t)).mapM parseRowPar = some (rows.map toParRow) := by
  induction rows with
  | nil => rfl
  | cons r rs ih =>
    rw [List.map_cons, List.map_cons, List.mapM_cons, parseRowPar_writeRow, ih]
    rfl

/-- C6: writing a report to the persisted table and reloading it through
the standalone analysis loader reproduces the serial baseline fields, the
grid size, and every per-configuration aggregate column exactly (missing
stays missing, values are bit-identical under the exact float repr round
trip), with the configuration list in the same order. -/
theorem c6_roundtrip (t : BenchTableData) (h : t.rows ≠ []) :
    loadTable (writeTable t) =
      some { ngrid := t.ngrid, t1Wall := t.T1wall, t1App := t.T1app,
             hc1 := t.hc1, hp1 := t.hp1,
             P := t.rows.map BenchRow.threads, Tp := t.rows.map BenchRow.TpWall,
             Sp := t.rows.map BenchRow.speedup, Ep := t.rows.map BenchRow.efficiency,
             Hc := t.rows.map BenchRow.hcMed, Hp := t.rows.map BenchRow.hpMed,
             Rss := t.rows.map BenchRow.maxrss } := by
  rcases hr : t.rows with _ | ⟨r0, rs⟩
  · exact absurd hr h
  · have hw : writeTable t = writeRow t r0 :: rs.map (writeRow t) := by
      rw [writeTable, hr, List.map_cons]
    rw [hw]
    have hmapm : ((writeRow t r0 :: rs.map (writeRow t)).mapM parseRowPar)
        = some ((r0 :: rs).map toParRow) := by
      have hmw := mapM_parse_write t (r0 :: rs)
      rw [List.map_cons] at hmw
      exact hmw
    unfold loadTable
    rw [hmapm]
    simp only [writeRow]
    simp [parseInt, parseFloat_writeF, parseFloatOpt_writeF, toParRow, List.map_map,
      Function.comp, hr]

/-- A concrete single-configuration report. -/
def sampleTableData : BenchTableData :=
  { ngrid := 48, T1wall := some 10, T1app := none, hc1 := some 1, hp1 := none,
    rows := [{ threads := 2, TpWall := some 5, TpApp := none, speedup := some 2,
               efficiency := some 1, maxrss := none, hcMed := some 1, hpMed := none }] }

/-- Witness for C6: the concrete report round-trips to exactly its own
fields. -/
theorem c6_roundtrip_witness :
    loadTable (writeTable sampleTableData) =
      some { ngrid := 48, t1Wall := some 10, t1App := none, hc1 := some 1, hp1 := none,
             P := [2], Tp := [some 5], Sp := [some 2], Ep := [some 1],
             Hc := [some 1], Hp := [none], Rss := [none] } := by
  have h := c6_roundtrip sampleTableData (by decide)
  simpa [sampleTableData] using h

/-! ### Summary generation (postprocess.py lines 82–90) -/

/-- The scanning loop of numpy argmin on a float vector, bench state
(index, best index, best value): a strictly smaller value replaces the
running best; a NaN replaces it and then — since every further comparison
against NaN is false and numpy stops scanning once the running best is
NaN — the index of the first NaN is returned. -/
def npArgminGo : List PyF → ℕ → ℕ → PyF → ℕ
  | [], _, bi, _ => bi
  | y :: rest, i, bi, b =>
    match b, y with
    | none, _ => bi
    | some _, none => npArgminGo rest (i + 1) i none
    | some bq, some yq =>
      if yq < bq then npArgminGo rest (i + 1) i (some yq)
      else npArgminGo rest (i + 1) bi (some bq)

/-- numpy argmin on a float vector: first index attaining the minimum,
or the index of the first NaN when one is present. -/
def npArgmin : List PyF → ℕ
  | [] => 0
  | x :: rest => npArgminGo rest 1 0 x

/-- The summary fields save_summary writes (postprocess.py lines
87–89). -/
structure SummaryData where
  bestP : ℤ
  bestTp : PyF
  speedupBest : PyF
  effBest : PyF
  deriving DecidableEq

/-- save_summary (postprocess.py lines 82–90): pick best_i = argmin of
the Tp column, report the thread count and wall time there, the speedup
T1_wall / best_Tp (Python float division — a zero best_Tp raises
ZeroDivisionError and produces no summary, modelled as `none`), and the
stored efficiency column at best_i (the fallback Sp / best_p is
unreachable since the arrays share their length). -/
def saveSummary (P : List ℤ) (Tp : List PyF) (T1wall : PyF) (Ep : List PyF) :
    Option SummaryData :=
  let i := npArgmin Tp
  let bTp := Tp.getD i none
  if bTp = some 0 then none
  else
    some { bestP := P.getD i 0, bestTp := bTp,
           speedupBest := pyDiv T1wall bTp,
           effBest := if i < Ep.length then Ep.getD i none
                      else pyDiv (pyDiv T1wall bTp) (some ((P.getD i 0 : ℤ) : ℚ)) }

/-- Modelled from the claim wording: among the configurations whose wall
time is defined, the one with the smallest wall time, ties broken by the
smallest thread count. -/
def specBestConfig (P : List ℤ) (Tp : List PyF) : Option (ℤ × ℚ) :=
  let cands := (P.zip Tp).filterMap
    (fun c => match c.2 with
              | some tq => some (c.1, tq)
              | none => none)
  cands.foldl
    (fun acc c =>
      match acc with
      | none => some c
      | some b => if c.2 < b.2 ∨ (c.2 = b.2 ∧ c.1 < b.1) then some c else some b)
    none

/-- C7: the claim fails on the code.  save_summary picks
best_i = np.argmin(Tp), the first row attaining the minimum, with no
thread-count tie-break: for loaded rows with thread counts [4, 2] and
equal wall times [1, 1] the summary reports thread count 4, while the
claimed tie-break by smallest thread count selects 2. -/
theorem c7_counterexample :
    (saveSummary [4, 2] [some 1, some 1] (some 10) [some 1, some 1]).map
        SummaryData.bestP = some 4 ∧
    (specBestConfig [4, 2] [some 1, some 1]).map Prod.fst = some 2 ∧
    ((some 4 : Option ℤ) ≠ some 2) := by
  exact ⟨by decide, by decide, by decide⟩

/-- The rational-valued core of the numpy argmin scan, for relating the
executed scan to the first-minimum specification on NaN-free data. -/
def argminGoQ : List ℚ → ℕ → ℕ → ℚ → ℕ
  | [], _, bi, _ => bi
  | y :: rest, i, bi, b =>
    if y < b then argminGoQ rest (i + 1) i y else argminGoQ rest (i + 1) bi b

theorem npArgminGo_map_some (l : List ℚ) :
    ∀ (i bi : ℕ) (b : ℚ), npArgminGo (l.map some) i bi (some b) = argminGoQ l i bi b := by
  induction l with
  | nil => intro i bi b; rfl
  | cons y ys ih =>
    intro i bi b
    by_cases h : y < b
    · simp [npArgminGo, argminGoQ, h, ih]
    · simp [npArgminGo, argminGoQ, h, ih]

theorem argminGoQ_spec (l : List ℚ) :
    ∀ (i bi : ℕ) (b : ℚ),
      (argminGoQ l i bi b = bi ∧ ∀ y ∈ l, b ≤ y) ∨
      (∃ k, k < l.length ∧ argminGoQ l i bi b = i + k ∧ l.getD k 0 < b ∧
        (∀ y ∈ l, l.getD k 0 ≤ y) ∧ (∀ m, m < k → l.getD k 0 < l.getD m 0)) := by
  induction l with
  | nil => intro i bi b; left; exact ⟨rfl, by simp⟩
  | cons y ys ih =>
    intro i bi b
    by_cases h : y < b
    · right
      have hrec := ih (i + 1) i y
      rcases hrec with ⟨heq, hall⟩ | ⟨k, hk, heq, hlt, hall, hfirst⟩
      · refine ⟨0, by simp, ?_, ?_, ?_, ?_⟩
        · simpa [argminGoQ, h] using heq
        · simpa using h
        · intro z hz
          rcases List.mem_cons.mp hz with rfl | hz
          · simp
          · simpa using hall z hz
        · intro m hm; omega
      · refine ⟨k + 1, by simpa using hk, ?_, ?_, ?_, ?_⟩
        · have hstep : argminGoQ (y :: ys) i bi b = argminGoQ ys (i + 1) i y := by
            simp [argminGoQ, h]
          rw [hstep, heq]; omega
        · have hky : ys.getD k 0 < y := hlt
          simpa using lt_trans hky h
        · intro z hz
          rcases List.mem_cons.mp hz with rfl | hz
          · simpa using le_of_lt hlt
          · simpa using hall z hz
        · intro m hm
          cases m with
          | zero => simpa using hlt
          | succ m2 => simpa using hfirst m2 (by omega)
    · have hby : b ≤ y := not_lt.mp h
      have hrec := ih (i + 1) bi b
      rcases hrec with ⟨heq, hall⟩ | ⟨k, hk, heq, hlt, hall, hfirst⟩
      · left
        constructor
        · simpa [argminGoQ, h] using heq
        · intro z hz
          rcases List.mem_cons.mp hz with rfl | hz
          · exact hby
          · exact hall z hz
      · right
        refine ⟨k + 1, by simpa using hk, ?_, ?_, ?_, ?_⟩
        · have hstep : argminGoQ (y :: ys) i bi b = argminGoQ ys (i + 1) bi b := by
            simp [argminGoQ, h]
          rw [hstep, heq]; omega
        · simpa using hlt
        · intro z hz
          rcases List.mem_cons.mp hz with rfl | hz
          · simpa using le_of_lt (lt_of_lt_of_le hlt hby)
          · simpa using hall z hz
        · intro m hm
          cases m with
          | zero => simpa using lt_of_lt_of_le hlt hby
          | succ m2 => simpa using hfirst m2 (by omega)

theorem npArgmin_first_min (x : ℚ) (xs : List ℚ) :
    npArgmin ((x :: xs).map some) < (x :: xs).length ∧
    (∀ j, j < (x :: xs).length →
      (x :: xs).getD (npArgmin ((x :: xs).map some)) 0 ≤ (x :: xs).getD j 0) ∧
    (∀ m, m < npArgmin ((x :: xs).map some) →
      (x :: xs).getD (npArgmin ((x :: xs).map some)) 0 < (x :: xs).getD m 0) := by
  have hdef : npArgmin ((x :: xs).map some) = argminGoQ xs 1 0 x := by
    simp only [List.map_cons, npArgmin]
    exact npArgminGo_map_some xs 1 0 x
  rcases argminGoQ_spec xs 1 0 x with ⟨heq, hall⟩ | ⟨k, hk, heq, hlt, hall, hfirst⟩
  · rw [hdef, heq]
    refine ⟨by simp, ?_, ?_⟩
    · intro j hj
      cases j with
      | zero => simp
      | succ j2 =>
        simp only [List.getD_cons_zero, List.getD_cons_succ]
        have hj2 : j2 < xs.length := by simpa using hj
        have hmem : xs.getD j2 0 ∈ xs := by
          rw [List.getD_eq_getElem xs 0 hj2]
          exact List.getElem_mem hj2
        exact hall _ hmem
    · intro m hm; omega
  · rw [hdef, heq]
    have hik : 1 + k = k + 1 := by omega
    rw [hik]
    refine ⟨by simpa using hk, ?_, ?_⟩
    · intro j hj
      simp only [List.getD_cons_succ]
      cases j with
      | zero => simpa using le_of_lt hlt
      | succ j2 =>
        simp only [List.getD_cons_succ]
        have hj2 : j2 < xs.length := by simpa using hj
        have hmem : xs.getD j2 0 ∈ xs := by
          rw [List.getD_eq_getElem xs 0 hj2]
          exact List.getElem_mem hj2
        exact hall _ hmem
    · intro m hm
      simp only [List.getD_cons_succ]
      cases m with
      | zero => simpa using hlt
      | succ m2 =>
        simp only [List.getD_cons_succ]
        exact hfirst m2 (by omega)

/-- C7 (amended): save_summary selects the first row attaining the
minimum wall time (numpy argmin first-occurrence semantics); when every
median wall time is defined and positive and the rows carry strictly
increasing thread counts — the order the sweep writes them — the selected
row has minimal wall time among all rows, a row with equal wall time
never has a smaller thread count, and the summary reports that row's
thread count, its wall time, the speedup T1 / Tp at that row, and the
stored efficiency column there.  (With unsorted rows, ties resolve to the
earliest row, not the smallest thread count; with a missing wall time
numpy argmin selects the first missing row.) -/
theorem c7_amended (P : List ℤ) (tq : List ℚ) (T1 : PyF) (Ep : List PyF)
    (hlen : P.length = tq.length) (hEp : Ep.length = tq.length)
    (hasc : List.Pairwise (fun a b => a < b) P)
    (hpos : ∀ q ∈ tq, 0 < q) (hne : tq ≠ []) :
    npArgmin (tq.map some) < tq.length ∧
    (∀ j, j < tq.length →
      tq.getD (npArgmin (tq.map some)) 0 ≤ tq.getD j 0) ∧
    (∀ j, j < tq.length → tq.getD j 0 = tq.getD (npArgmin (tq.map some)) 0 →
      P.getD (npArgmin (tq.map some)) 0 ≤ P.getD j 0) ∧
    saveSummary P (tq.map some) T1 Ep =
      some { bestP := P.getD (npArgmin (tq.map some)) 0,
             bestTp := some (tq.getD (npArgmin (tq.map some)) 0),
             speedupBest := pyDiv T1 (some (tq.getD (npArgmin (tq.map some)) 0)),
             effBest := Ep.getD (npArgmin (tq.map some)) none } := by
  rcases htq : tq with _ | ⟨x, xs⟩
  · exact absurd htq hne
  · subst htq
    obtain ⟨hi, hmin, hfirst⟩ := npArgmin_first_min x xs
    refine ⟨hi, fun j hj => hmin j hj, ?_, ?_⟩
    · intro j hj hje
      set i := npArgmin ((x :: xs).map some) with hidef
      rcases lt_trichotomy j i with hji | hji | hji
      · exfalso
        have hcontr := hfirst j hji
        rw [hje] at hcontr
        exact lt_irrefl _ hcontr
      · rw [hji]
      · have hiP : i < P.length := by rw [hlen]; exact hi
        have hjP : j < P.length := by rw [hlen]; exact hj
        have hPij := (List.pairwise_iff_getElem.mp hasc) i j hiP hjP hji
        rw [List.getD_eq_getElem P 0 hiP, List.getD_eq_getElem P 0 hjP]
        exact le_of_lt hPij
    · set i := npArgmin ((x :: xs).map some) with hidef
      have hbtp : ((x :: xs).map some).getD i none = some ((x :: xs).getD i 0) :=
        getD_map_some (x :: xs) i hi
      have hposi : 0 < (x :: xs).getD i 0 := by
        apply hpos
        rw [List.getD_eq_getElem (x :: xs) 0 hi]
        exact List.getElem_mem hi
      have hne1 : (some ((x :: xs).getD i 0) : PyF) ≠ some 0 := by
        intro hc
        rw [Option.some.inj hc] at hposi
        exact lt_irrefl 0 hposi
      have hiEp : i < Ep.length := by rw [hEp]; exact hi
      unfold saveSummary
      rw [← hidef]
      simp only [hbtp]
      rw [if_neg hne1]
      simp [hiEp]

/-- Witness for C7 (amended): rows with thread counts [1, 2, 4] and wall
times [10, 5, 2] select thread count 4 with speedup 10/2. -/
theorem c7_amended_witness :
    saveSummary [1, 2, 4] ([(10 : ℚ), 5, 2].map some) (some 10) [some 1, some 1, some 1] =
      some { bestP := 4, bestTp := some 2, speedupBest := pyDiv (some 10) (some 2),
             effBest := some 1 } := by
  have h := (c7_amended [1, 2, 4] [10, 5, 2] (some 10) [some 1, some 1, some 1]
    rfl rfl (by decide) (by decide) (by decide)).2.2.2
  have hargmin : npArgmin (([(10 : ℚ), 5, 2]).map some) = 2 := by decide
  rw [hargmin] at h
  simpa using h

/-! ### Throughput (postprocess.py lines 92–101, gated at lines
129–130) -/

/-- save_throughput line 94: QP = nstrike * ngrid^2 * (mrange + 1), the
total work units. -/
def qpCount (nstrike ngrid mrange : ℤ) : ℤ := nstrike * ngrid ^ 2 * (mrange + 1)

/-- save_throughput line 95: thr = QP / Tp in units per second (numpy
elementwise division; the claims under verification never divide by
zero). -/
def throughputOf (nstrike ngrid mrange : ℤ) (tp : PyF) : PyF :=
  pyDiv (some ((qpCount nstrike ngrid mrange : ℤ) : ℚ)) tp

/-- C8: throughput equals total work units divided by Tp whenever Tp is a
nonzero value; the artifact is produced exactly when both workload
parameters are supplied; and on the spec instance (grid 48, 30 strikes,
secondary dimension 99, Tp = 2 s) the total work is 6912000 units, the
throughput 3456000 units per second, i.e. 3.456 million per second as
plotted (line 97 divides by 1e6). -/
theorem c8_throughput :
    (∀ (ns ng mr : ℤ) (q : ℚ), q ≠ 0 →
      throughputOf ns ng mr (some q) = some ((qpCount ns ng mr : ℚ) / q)) ∧
    (∀ (d : LoadedData) (mr ns : Option ℤ),
      Artifact.throughputPng ∈ postprocessArtifacts d mr ns ↔ (mr.isSome ∧ ns.isSome)) ∧
    qpCount 30 48 99 = 6912000 ∧
    throughputOf 30 48 99 (some 2) = some 3456000 ∧
    pyDiv (throughputOf 30 48 99 (some 2)) (some 1000000) = some (3456 / 1000) := by
  refine ⟨?_, ?_, by norm_num [qpCount], ?_, ?_⟩
  · intro ns ng mr q hq
    simp [throughputOf, pyDiv, hq]
  · intro d mr ns
    unfold postprocessArtifacts
    rcases amdahlEstimate d.P d.Tp d.t1Wall with _ | s <;>
      by_cases h1 : (1 : ℤ) ∈ d.P <;>
      by_cases h2 : mr.isSome <;>
      by_cases h3 : ns.isSome <;>
      simp [h1, h2, h3]
  · norm_num [throughputOf, qpCount, pyDiv]
  · norm_num [throughputOf, qpCount, pyDiv]

/-- Witness for C8: concrete nonzero-divisor instance of the general
formula, and the artifact gate satisfied with both parameters given. -/
theorem c8_throughput_witness :
    throughputOf 30 48 99 (some 2) = some ((qpCount 30 48 99 : ℚ) / 2) ∧
    Artifact.throughputPng ∈ postprocessArtifacts degenerateData (some 99) (some 30) :=
  ⟨c8_throughput.1 30 48 99 2 (by norm_num),
   (c8_throughput.2.1 degenerateData (some 99) (some 30)).mpr (by simp)⟩

/-- C10: the parallel-baseline speedup artifact is produced exactly when
some loaded row has thread count 1 (save_speedup_parallel, postprocess.py
lines 50–63, returns early without writing otherwise), and its presence
or absence leaves every other artifact decision unchanged. -/
theorem c10_parallel_baseline :
    ∀ (d : LoadedData) (mr ns : Option ℤ),
      (Artifact.speedupParallel ∈ postprocessArtifacts d mr ns ↔ (1 : ℤ) ∈ d.P) ∧
      Artifact.speedupSerial ∈ postprocessArtifacts d mr ns ∧
      Artifact.correctnessTable ∈ postprocessArtifacts d mr ns ∧
      Artifact.summaryTxt ∈ postprocessArtifacts d mr ns ∧
      (Artifact.amdahlTxt ∈ postprocessArtifacts d mr ns ↔
        (amdahlEstimate d.P d.Tp d.t1Wall).isSome) ∧
      (Artifact.throughputPng ∈ postprocessArtifacts d mr ns ↔ (mr.isSome ∧ ns.isSome)) := by
  intro d mr ns
  unfold postprocessArtifacts
  rcases amdahlEstimate d.P d.Tp d.t1Wall with _ | s <;>
    by_cases h1 : (1 : ℤ) ∈ d.P <;>
    by_cases h2 : mr.isSome <;>
    by_cases h3 : ns.isSome <;>
    simp [h1, h2, h3]

/-- Witness for C10: the degenerate dataset has no thread count 1, and
the parallel-baseline speedup artifact is absent while the summary is
still produced. -/
theorem c10_witness :
    Artifact.speedupParallel ∉ postprocessArtifacts degenerateData none none ∧
    Artifact.summaryTxt ∈ postprocessArtifacts degenerateData none none := by
  have h := c10_parallel_baseline degenerateData none none
  constructor
  · intro hmem
    have h1 := h.1.mp hmem
    revert h1
    decide
  · exact h.2.2.2.1

/-! ### The sweep driver pipeline (bench.py main, lines 89–190) -/

/-- One trial as run_one returns it (bench.py line 76): the harness wall
time is always measured; the internal duration, peak memory and the two
correctness scalars may be missing. -/
structure Sample where
  wall : ℚ
  app : PyF
  maxrss : PyF
  hc : PyF
  hp : PyF
  rc : ℤ
  deriving DecidableEq

/-- The per-configuration reduction of bench.py lines 103–121: medians of
each field over the repeats (only the peak-memory median excludes missing
values), then speedup and efficiency from lines 109–110. -/
def aggregateConfig (T1wall : PyF) (pthr : ℤ) (runs : List Sample) : BenchRow :=
  let TpWall := med (runs.map (fun r => some r.wall))
  let Sp := speedupOf T1wall TpWall
  { threads := pthr,
    TpWall := TpWall,
    TpApp := med (runs.map Sample.app),
    speedup := Sp,
    efficiency := efficiencyOf Sp pthr,
    maxrss := medFiltered (runs.map Sample.maxrss),
    hcMed := med (runs.map Sample.hc),
    hpMed := med (runs.map Sample.hp) }

/-- The per-configuration rows of the sweep, in thread-list order. -/
def benchRows (T1wall : PyF) (cfgs : List (ℤ × List Sample)) : List BenchRow :=
  cfgs.map (fun c => aggregateConfig T1wall c.1 c.2)

/-- The artifact sequence written by main of bench.py (lines 123–186):
the CSV and the three scaling plots unconditionally; the memory plot only
when not every per-configuration memory median is NaN (line 170, numpy
all over an empty array being true); the amdahl text only when the
try/except-wrapped fit succeeds (lines 180–186). -/
def benchArtifacts (T1wall : PyF) (cfgs : List (ℤ × List Sample)) : List Artifact :=
  [Artifact.csvTable, Artifact.timePlot, Artifact.speedupPlot, Artifact.efficiencyPlot]
    ++ (if ((benchRows T1wall cfgs).map BenchRow.maxrss).all (fun x => x.isNone) then []
        else [Artifact.memoryPlot])
    ++ (match amdahlEstimate ((benchRows T1wall cfgs).map BenchRow.threads)
          ((benchRows T1wall cfgs).map BenchRow.TpWall) T1wall with
        | some _ => [Artifact.amdahlTxt]
        | none => [])

theorem medFiltered_all_none (runs : List Sample)
    (h : ∀ s ∈ runs, s.maxrss = none) :
    medFiltered (runs.map Sample.maxrss) = none := by
  have hfil : (runs.map Sample.maxrss).filter (fun x => x.isSome) = [] := by
    induction runs with
    | nil => rfl
    | cons r rs ih =>
      have hr : r.maxrss = none := h r (by simp)
      simp only [List.map_cons, List.filter_cons, hr]
      exact ih (fun s hs => h s (by simp [hs]))
  unfold medFiltered
  rw [hfil]
  rfl

/-- C9: when the memory field is missing in every sample of every
configuration, every per-configuration memory median is missing, the
memory plot is omitted, no error occurs, and the other artifacts — the
CSV table, the three scaling plots, and the amdahl text under its own
unchanged condition — are produced exactly as otherwise. -/
theorem c9_memory_omitted (T1wall : PyF) (cfgs : List (ℤ × List Sample))
    (h : ∀ c ∈ cfgs, ∀ s ∈ c.2, s.maxrss = none) :
    Artifact.memoryPlot ∉ benchArtifacts T1wall cfgs ∧
    Artifact.csvTable ∈ benchArtifacts T1wall cfgs ∧
    Artifact.timePlot ∈ benchArtifacts T1wall cfgs ∧
    Artifact.speedupPlot ∈ benchArtifacts T1wall cfgs ∧
    Artifact.efficiencyPlot ∈ benchArtifacts T1wall cfgs ∧
    (Artifact.amdahlTxt ∈ benchArtifacts T1wall cfgs ↔
      (amdahlEstimate ((benchRows T1wall cfgs).map BenchRow.threads)
        ((benchRows T1wall cfgs).map BenchRow.TpWall) T1wall).isSome) := by
  have hall : ((benchRows T1wall cfgs).map BenchRow.maxrss).all (fun x => x.isNone) = true := by
    rw [List.all_eq_true]
    intro x hx
    rcases List.mem_map.mp hx with ⟨row, hrow, rfl⟩
    rcases List.mem_map.mp hrow with ⟨c, hc, rfl⟩
    have hrss : (aggregateConfig T1wall c.1 c.2).maxrss = none :=
      medFiltered_all_none c.2 (h c hc)
    simp [hrss]
  unfold benchArtifacts
  rw [hall]
  simp only [if_pos, List.append_nil, ite_true]
  rcases amdahlEstimate ((benchRows T1wall cfgs).map BenchRow.threads)
      ((benchRows T1wall cfgs).map BenchRow.TpWall) T1wall with _ | s <;>
    simp

/-- A configuration list with one thread count and two samples, every
memory field missing. -/
def noMemCfgs : List (ℤ × List Sample) :=
  [(2, [{ wall := 4, app := none, maxrss := none, hc := none, hp := none, rc := 0 },
        { wall := 6, app := none, maxrss := none, hc := none, hp := none, rc := 0 }])]

/-- Witness for C9: with both samples missing the memory field, the
memory plot is absent and the CSV is still produced. -/
theorem c9_witness :
    Artifact.memoryPlot ∉ benchArtifacts (some 10) noMemCfgs ∧
    Artifact.csvTable ∈ benchArtifacts (some 10) noMemCfgs := by
  have h := c9_memory_omitted (some 10) noMemCfgs (by decide)
  exact ⟨h.1, h.2.1⟩
